import Mathlib

/-!
# Verification of the document-processing pipeline (OCR → text → chunks)

Shallow embedding of the core of the Nodejs-OCR-TTS server:

* `ChunkingService` (`chunkText`, `preprocessText`, `splitIntoChunks`,
  `findBreakPoint`, `findSentenceBreak`, `countWords`, `saveChunks`) —
  from `src/services/chunking.service.ts`;
* `OCRService.processPDF`'s page loop — from `src/services/ocr.service.ts`;
* `DocumentService.processDocument` (the pipeline orchestrator) together
  with `ProcessingJobModel.updateStatus` and `DocumentModel.updateStatus` —
  from `src/services/document.service.ts`, `src/models/ProcessingJob.ts`,
  `src/models/Document.ts`.

Text is modelled as `List Char`; JavaScript string primitives
(`substring`, `lastIndexOf`, `trim`, the `\s` character class, regex
search for `[.!?]\s+[A-Z]`) are embedded with their ECMAScript clamping
and searching semantics.  JavaScript numbers that can only hold integers
in the relevant code paths are `Nat`/`Int`; OCR confidences are `ℚ`,
with `JsNumber := Option ℚ` where `none` stands for `NaN` (the one place
it arises: `0/0` when averaging confidences of an empty page list).

Loops whose cursor advances by at least one position per iteration are
written with an explicit fuel argument equal to the number of remaining
positions, which keeps every definition kernel-computable; the fact that
this fuel is always sufficient is proved where a claim depends on it.
-/

/-! ## JavaScript string primitives -/

/-- The ECMAScript `\s` character class (also the set removed by
`String.prototype.trim`): ASCII whitespace, NBSP, and the Unicode
space separators / line terminators / BOM. -/
def isJsWhitespace (c : Char) : Bool :=
  c = ' ' || c = '\t' || c = '\n' || c = '\r' || c = '\x0b' || c = '\x0c' ||
  c = '\u00A0' || c = '\u1680' ||
  ('\u2000' ≤ c && c ≤ '\u200A') ||
  c = '\u2028' || c = '\u2029' || c = '\u202F' || c = '\u205F' ||
  c = '\u3000' || c = '\uFEFF'

/-- Model of `String.prototype.trim`: drop leading and trailing whitespace. -/
def jsTrim (l : List Char) : List Char :=
  ((l.dropWhile isJsWhitespace).reverse.dropWhile isJsWhitespace).reverse

/-- Model of `String.prototype.substring(a, b)`: both arguments are clamped to
`[0, length]` and swapped when `a > b`; returns the slice `[lo, hi)`. -/
def jsSubstring (l : List Char) (a b : Int) : List Char :=
  let len : Int := l.length
  let a' : Nat := ((min (max a 0) len)).toNat
  let b' : Nat := ((min (max b 0) len)).toNat
  let lo := min a' b'
  let hi := max a' b'
  (l.drop lo).take (hi - lo)

/-- Scanner for `jsLastIndexOf`: walk the suffixes of the text keeping the
last position `k ≤ clamp` at which `needle` occurs; `acc` is `-1` until a
match is found. -/
def jsLastIndexOfAux (needle : List Char) (clamp : Nat) :
    List Char → Nat → Int → Int
  | [], _, acc => acc
  | l@(_ :: rest), k, acc =>
    if k > clamp then acc
    else jsLastIndexOfAux needle clamp rest (k + 1)
      (if needle.isPrefixOf l then (k : Int) else acc)

/-- Model of `String.prototype.lastIndexOf(needle, fromIdx)`: the largest position
`k ≤ min (max fromIdx 0) length` at which `needle` occurs, else `-1`. -/
def jsLastIndexOf (text needle : List Char) (fromIdx : Int) : Int :=
  jsLastIndexOfAux needle (min (max fromIdx 0).toNat text.length) text 0 (-1)

/-- A `NaN`-aware JavaScript number: `none` is `NaN`. -/
abbrev JsNumber := Option ℚ

/-- Division as it occurs in the sources: the denominator is a list
length, so a zero denominator means `0 / 0 = NaN`. -/
def jsDiv (a b : ℚ) : JsNumber :=
  if b = 0 then none else some (a / b)

namespace ChunkingService

/-! ## ChunkingService (src/services/chunking.service.ts) -/

/-- The `ChunkOptions` record of `chunking.service.ts` (defaults applied by the
destructuring in `chunkText`). -/
structure ChunkOptions where
  chunkSize : Int
  chunkOverlap : Int
  preserveSentences : Bool := true
  preserveParagraphs : Bool := true
deriving DecidableEq

/-- The options record passed from `chunkText` to `splitIntoChunks`. -/
structure BreakOpts where
  preserveSentences : Bool
  preserveParagraphs : Bool
deriving DecidableEq

/-- One element of `chunkText`'s result (interface `TextChunk`). -/
structure TextChunk where
  content : List Char
  chunkIndex : Nat
  startPage : Nat
  endPage : Nat
  wordCount : Nat
  characterCount : Nat
  estimatedReadingTime : Nat
deriving DecidableEq

/-- The pass `.replace(/\r\n/g, '\n')` — normalize line endings. -/
def replaceCrLf : List Char → List Char
  | '\r' :: '\n' :: rest => '\n' :: replaceCrLf rest
  | c :: rest => c :: replaceCrLf rest
  | [] => []

/-- Render a run of `k` newlines after `.replace(/\n{3,}/g, '\n\n')`:
runs of three or more collapse to exactly two. -/
def nlRunOut (k : Nat) : List Char :=
  if 3 ≤ k then ['\n', '\n'] else List.replicate k '\n'

/-- Scanner for `.replace(/\n{3,}/g, '\n\n')`: `k` counts the newlines of
the current (maximal) run, flushed when the run ends. -/
def collapseNlAux : Nat → List Char → List Char
  | k, [] => nlRunOut k
  | k, c :: rest =>
    if c = '\n' then collapseNlAux (k + 1) rest
    else nlRunOut k ++ c :: collapseNlAux 0 rest

/-- The pass `.replace(/\n{3,}/g, '\n\n')` — normalize paragraph breaks. -/
def collapseNl (l : List Char) : List Char := collapseNlAux 0 l

/-- Scanner for `.replace(/\s+/g, ' ')`: `inRun` records whether the
previous character belonged to a whitespace run (whose single
replacement space has already been emitted). -/
def collapseWsAux : Bool → List Char → List Char
  | _, [] => []
  | inRun, c :: rest =>
    if isJsWhitespace c then
      (if inRun then [] else [' ']) ++ collapseWsAux true rest
    else c :: collapseWsAux false rest

/-- The pass `.replace(/\s+/g, ' ')` — collapse every whitespace run to one space. -/
def collapseWs (l : List Char) : List Char := collapseWsAux false l

/-- Model of `preprocessText`: normalize line endings, then paragraph breaks, then
whitespace runs, then trim. -/
def preprocessText (text : List Char) : List Char :=
  jsTrim (collapseWs (collapseNl (replaceCrLf text)))

/-- Is `c` one of the sentence-ending characters `[.!?]`? -/
def isSentencePunct (c : Char) : Bool :=
  c = '.' || c = '!' || c = '?'

/-- Is `c` in the character class `[A-Z]`? -/
def isUpperAZ (c : Char) : Bool :=
  65 ≤ c.toNat && c.toNat ≤ 90

/-- Length of the regex match `[.!?]\s+[A-Z]` anchored at the head of
`l`, if any: one punctuation character, a non-empty maximal whitespace
run (backtracking cannot shorten it, since whitespace is never `[A-Z]`),
one uppercase letter. -/
def sentenceMatchLen : List Char → Option Nat
  | [] => none
  | c :: rest =>
    if isSentencePunct c then
      let r := (rest.takeWhile isJsWhitespace).length
      if r = 0 then none
      else
        match rest.drop r with
        | [] => none
        | u :: _ => if isUpperAZ u then some (r + 2) else none
    else none

/-- Successive (`g`-flag, non-overlapping) matches of `[.!?]\s+[A-Z]` in
the suffix `l`, whose head sits at absolute index `idx`; the fuel is an
upper bound on the scanned length (each step consumes at least one
character, so `l.length` suffices). -/
def sentenceScanF : Nat → List Char → Nat → List (Nat × Nat)
  | 0, _, _ => []
  | fuel + 1, l, idx =>
    match l with
    | [] => []
    | _ :: rest =>
      match sentenceMatchLen l with
      | some len => (idx, len) :: sentenceScanF fuel (l.drop len) (idx + len)
      | none => sentenceScanF fuel rest (idx + 1)

/-- Model of `findSentenceBreak`: run the regex from `lastIndex = start`, keep
updating `lastSentenceEnd = match.index + 1` until the first match with
`match.index > end`, and return it (or `start` when no match counted). -/
def findSentenceBreak (text : List Char) (start : Nat) (endPos : Int) : Nat :=
  let ms := sentenceScanF (text.length - start) (text.drop start) start
  match (ms.takeWhile (fun m => (m.1 : Int) ≤ endPos)).getLast? with
  | some m => m.1 + 1
  | none => start

/-- Model of `findBreakPoint`: paragraph break (`lastIndexOf('\n\n', end)`), then
sentence break, then word boundary (`lastIndexOf(' ', end)`), each used
only if enabled and strictly after `start`; otherwise break at `end`. -/
def findBreakPoint (text : List Char) (start : Nat) (endPos : Int)
    (o : BreakOpts) : Int :=
  let wordOr : Int :=
    let wb := jsLastIndexOf text [' '] endPos
    if wb > (start : Int) then wb else endPos
  let sentenceOr : Int :=
    if o.preserveSentences then
      let sb := findSentenceBreak text start endPos
      if (sb : Int) > (start : Int) then (sb : Int) else wordOr
    else wordOr
  if o.preserveParagraphs then
    let pb := jsLastIndexOf text ['\n', '\n'] endPos
    if pb > (start : Int) then pb else sentenceOr
  else sentenceOr

/-- The `while (start < text.length)` loop of `splitIntoChunks`,
instrumented to record each emitted chunk's start offset.  The cursor
advances by `start = max(start + 1, end - chunkOverlap)`, hence by at
least one position per iteration, so fuel `text.length - start`
suffices (proved in `splitIntoChunksF_fuel_irrelevant`). -/
def splitIntoChunksF (text : List Char) (chunkSize chunkOverlap : Int)
    (o : BreakOpts) : Nat → Nat → List (Nat × List Char)
  | 0, _ => []
  | fuel + 1, start =>
    if start < text.length then
      let cand : Int := min ((start : Int) + chunkSize) (text.length : Int)
      let e : Int :=
        if cand < (text.length : Int) then findBreakPoint text start cand o
        else cand
      let chunk := jsTrim (jsSubstring text (start : Int) e)
      let next : Nat := (max ((start : Int) + 1) (e - chunkOverlap)).toNat
      if chunk.isEmpty then splitIntoChunksF text chunkSize chunkOverlap o fuel next
      else (start, chunk) :: splitIntoChunksF text chunkSize chunkOverlap o fuel next
    else []

/-- Model of `splitIntoChunks` (source lines 80–107): the emitted chunk strings. -/
def splitIntoChunks (text : List Char) (chunkSize chunkOverlap : Int)
    (o : BreakOpts) : List (List Char) :=
  (splitIntoChunksF text chunkSize chunkOverlap o text.length 0).map Prod.snd

/-- Scanner for `countWords`: `text.split(/\s+/).filter(w => w.length > 0).length`
counts the maximal non-whitespace runs; `inWord` tracks whether the
current run has already been counted. -/
def countWordsAux : Bool → List Char → Nat
  | _, [] => 0
  | inWord, c :: rest =>
    if isJsWhitespace c then countWordsAux false rest
    else (if inWord then 0 else 1) + countWordsAux true rest

/-- Model of `countWords`. -/
def countWords (l : List Char) : Nat := countWordsAux false l

/-- Model of `calculateReadingTime`: `Math.ceil(wordCount / 200 * 60)` seconds at
200 words per minute, i.e. `⌈3·wordCount / 10⌉`. -/
def calculateReadingTime (l : List Char) : Nat :=
  (3 * countWords l + 9) / 10

/-- Model of `chunkText` (source lines 24–70): preprocess, split, then decorate
each chunk with its index and statistics.  The body contains no `throw`
and every operation it uses is total, so the `try`/`catch` wrapper never
produces an error (see `chunkTextE`). -/
def chunkText (text : List Char) (options : ChunkOptions) : List TextChunk :=
  let processedText := preprocessText text
  let chunks := splitIntoChunks processedText options.chunkSize options.chunkOverlap
    ⟨options.preserveSentences, options.preserveParagraphs⟩
  chunks.enum.map fun p =>
    { content := p.2
      chunkIndex := p.1
      startPage := 1
      endPage := 1
      wordCount := countWords p.2
      characterCount := p.2.length
      estimatedReadingTime := calculateReadingTime p.2 }

/-- The function `chunkText` as the fallible call its callers see: the source wraps
the body in `try { ... } catch (error) { throw error; }`, and no
statement in the body can throw for any input (there is no chunk-size
validation), so the result is always `Except.ok`. -/
def chunkTextE (text : List Char) (options : ChunkOptions) :
    Except String (List TextChunk) :=
  Except.ok (chunkText text options)

end ChunkingService

namespace OCRService

/-! ## OCRService (src/services/ocr.service.ts) -/

/-- One element of `processImage`/`processPDF`'s result (interface
`OCRResult`; the optional per-word boxes are carried by no claim and are
omitted). -/
structure OCRResult where
  text : List Char
  confidence : ℚ
  pageNumber : Nat
deriving DecidableEq

/-- Outcome of one round of the `processPDF` page loop, as seen through
its injected collaborators: `convert(pageNumber)` may throw
(end-of-document or conversion error), return a result with no `path`,
or produce an image on which `processImage` either throws or returns
recognized text with a confidence. -/
inductive PageOutcome where
  | convertError
  | noPath
  | recognizeError
  | page (text : List Char) (confidence : ℚ)
deriving DecidableEq

/-- The `while (true)` page loop of `processPDF` (source lines 280–308):
each successfully recognized page is appended; a missing `path` breaks;
and the `catch` around the whole loop body turns *any* thrown error —
conversion failure or recognition failure alike — into a `break`, so the
loop stops at the first non-`page` outcome. -/
def processPDFLoop : List PageOutcome → Nat → List OCRResult
  | [], _ => []
  | PageOutcome.convertError :: _, _ => []
  | PageOutcome.noPath :: _, _ => []
  | PageOutcome.recognizeError :: _, _ => []
  | PageOutcome.page t c :: rest, pageNumber =>
    { text := jsTrim t, confidence := c, pageNumber := pageNumber } ::
      processPDFLoop rest (pageNumber + 1)

/-- Model of `processPDF`: run the page loop from `pageNumber = 1`.  The list of
`PageOutcome`s beyond the source's last real page is
`convertError`-terminated (the rasterizer throws past the end), which the
loop treats as the end-of-document signal. -/
def processPDF (pages : List PageOutcome) : List OCRResult :=
  processPDFLoop pages 1

end OCRService

namespace Pipeline

/-! ## Pipeline orchestration
(src/services/document.service.ts, src/models/ProcessingJob.ts,
src/models/Document.ts) -/

open ChunkingService OCRService

/-- Prisma `ProcessingStatus` enum. -/
inductive ProcessingStatus where
  | UPLOADED | QUEUED | PROCESSING | EXTRACTING_TEXT | CHUNKING
  | COMPLETED | FAILED | CANCELLED
deriving DecidableEq

/-- Prisma `JobStatus` enum. -/
inductive JobStatus where
  | WAITING | ACTIVE | COMPLETED | FAILED | DELAYED | STUCK
deriving DecidableEq

/-- The fields of a `Document` row the pipeline reads or writes. -/
structure Document where
  status : ProcessingStatus
  extractedText : Option (List Char)
  ocrConfidence : Option JsNumber
  processedAt : Bool
deriving DecidableEq

/-- The fields of a `ProcessingJob` row the pipeline reads or writes. -/
structure Job where
  status : JobStatus
  progress : Nat
  error : Option String
deriving DecidableEq

/-- Model of `ProcessingJobModel.updateStatus` (ProcessingJob.ts lines 106–146):
set the status, overwrite progress/error only when passed, and on a
transition to `COMPLETED` force `progress = 100`. -/
def jobUpdateStatus (j : Job) (status : JobStatus)
    (progress : Option Nat) (error : Option String) : Job :=
  let j' : Job :=
    { status := status
      progress := match progress with | some p => p | none => j.progress
      error := match error with | some e => some e | none => j.error }
  match status with
  | JobStatus.COMPLETED => { j' with progress := 100 }
  | _ => j'

/-- Model of `DocumentModel.updateStatus` (Document.ts lines 83–91): set the
status; `processedAt` is a timestamp on transition to `COMPLETED` and
`null` otherwise (modelled as a Bool). -/
def docUpdateStatus (d : Document) (status : ProcessingStatus) : Document :=
  { d with status := status,
           processedAt := decide (status = ProcessingStatus.COMPLETED) }

/-- The `DocumentModel.update` call of `processDocument` (lines 209–213):
one write sets `extractedText`, `ocrConfidence` and
`status = EXTRACTING_TEXT` together. -/
def docUpdateExtracted (d : Document) (text : List Char) (conf : JsNumber) :
    Document :=
  { d with extractedText := some text
           ocrConfidence := some conf
           status := ProcessingStatus.EXTRACTING_TEXT }

/-- Aggregation of page texts (line 205):
`ocrResults.map(r => r.text).join('\n\n')`. -/
def combineExtractedText (results : List OCRResult) : List Char :=
  List.intercalate ['\n', '\n'] (results.map fun r => r.text)

/-- Aggregation of page confidences (line 206):
`ocrResults.reduce((sum, r) => sum + r.confidence, 0) / ocrResults.length`
— for an empty page list this is JavaScript's `0 / 0 = NaN`. -/
def averageConfidence (results : List OCRResult) : JsNumber :=
  jsDiv (results.foldl (fun sum r => sum + r.confidence) 0)
    (results.length : ℚ)

/-- One run of `processDocument`, as seen through the injected
collaborators: whether the storage download succeeds, what
`extractTextFromBuffer` returns (a thrown error, or a page-result list —
possibly empty, since `processPDF` imposes no minimum), whether chunking
is enabled, the effective chunk options, whether the
`TextChunkModel.createMany` insert succeeds, and the chunk rows stored
for the document before the run.  The job is assumed found with metadata
present (otherwise `processDocument` returns before touching any state). -/
structure Scenario where
  storageOk : Bool
  ocrOutcome : Except String (List OCRResult)
  enableChunking : Bool
  chunkSize : Int
  chunkOverlap : Int
  saveOk : Bool
  priorChunks : List TextChunk

/-- The document as `processDocument` finds it (set `QUEUED` by
`startOCRProcessing`, nothing extracted yet). -/
def initialDocument : Document :=
  { status := ProcessingStatus.QUEUED, extractedText := none,
    ocrConfidence := none, processedAt := false }

/-- The job as `processDocument` finds it (created `WAITING`, progress
at its schema default 0, no error). -/
def initialJob : Job :=
  { status := JobStatus.WAITING, progress := 0, error := none }

/-- One observable point of a pipeline run: the document row, the job
row, and the stored chunk rows for this document. -/
structure PipelineState where
  doc : Document
  job : Job
  chunks : List TextChunk
deriving DecidableEq

/-- The `catch` block of `processDocument` (lines 237–249): job →
`FAILED` with the captured message, then document → `FAILED`. -/
def failSteps (s : PipelineState) (msg : String) : List PipelineState :=
  let s1 : PipelineState :=
    { s with job := jobUpdateStatus s.job JobStatus.FAILED none (some msg) }
  let s2 : PipelineState :=
    { s1 with doc := docUpdateStatus s1.doc ProcessingStatus.FAILED }
  [s1, s2]

/-- The completion tail of `processDocument` (lines 227–228): job →
`COMPLETED` with progress 100, then document → `COMPLETED`. -/
def completeSteps (s : PipelineState) : List PipelineState :=
  let s1 : PipelineState :=
    { s with job := jobUpdateStatus s.job JobStatus.COMPLETED (some 100) none }
  let s2 : PipelineState :=
    { s1 with doc := docUpdateStatus s1.doc ProcessingStatus.COMPLETED }
  [s1, s2]

/-- Model of `processDocument` (document.service.ts lines 157–250) as the list of
observable states after each database write, in program order.  The
chunking branch inlines `DocumentService.chunkText` (lines 252–277) and
`ChunkingService.saveChunks` (delete-then-insert, lines 167–195); a
failed insert propagates to the `catch` block with the prior chunk rows
already deleted. -/
def processDocumentTrace (sc : Scenario) : List PipelineState :=
  let s0 : PipelineState :=
    { doc := initialDocument, job := initialJob, chunks := sc.priorChunks }
  let s1 := { s0 with job := jobUpdateStatus s0.job JobStatus.ACTIVE (some 0) none }
  let s2 := { s1 with doc := docUpdateStatus s1.doc ProcessingStatus.PROCESSING }
  s0 :: s1 :: s2 ::
    (if sc.storageOk then
      let s3 := { s2 with job := jobUpdateStatus s2.job JobStatus.ACTIVE (some 10) none }
      s3 ::
        (match sc.ocrOutcome with
         | Except.error msg => failSteps s3 msg
         | Except.ok results =>
           let s4 := { s3 with job := jobUpdateStatus s3.job JobStatus.ACTIVE (some 70) none }
           let extractedText := combineExtractedText results
           let conf := averageConfidence results
           let s5 := { s4 with doc := docUpdateExtracted s4.doc extractedText conf }
           let s6 := { s5 with job := jobUpdateStatus s5.job JobStatus.ACTIVE (some 80) none }
           s4 :: s5 :: s6 ::
             (if sc.enableChunking then
               let newChunks := ChunkingService.chunkText extractedText
                 { chunkSize := sc.chunkSize, chunkOverlap := sc.chunkOverlap }
               let s7 := { s6 with chunks := [] }
               s7 ::
                 (if sc.saveOk then
                   let s8 := { s7 with chunks := newChunks }
                   let s9 := { s8 with doc := docUpdateStatus s8.doc ProcessingStatus.CHUNKING }
                   s8 :: s9 :: completeSteps s9
                 else failSteps s7 "Failed to save text chunks")
             else completeSteps s6))
    else failSteps s2 "Failed to download file")

/-- The state a run leaves behind (the trace is never empty). -/
def finalState (sc : Scenario) : PipelineState :=
  (processDocumentTrace sc).getLastD
    { doc := initialDocument, job := initialJob, chunks := sc.priorChunks }

/-- Did extraction succeed in this scenario (storage read succeeded and
`extractTextFromBuffer` returned rather than threw)? -/
def extractionReached (sc : Scenario) : Bool :=
  sc.storageOk && (match sc.ocrOutcome with
    | Except.ok _ => true
    | Except.error _ => false)

end Pipeline

/-! ## General lemmas about the chunking loop -/

namespace ChunkingService

/-- The cursor update `start = max(start + 1, end - chunkOverlap)` makes
strict forward progress. -/
theorem nextStart_ge (start : Nat) (x : Int) :
    start + 1 ≤ (max ((start : Int) + 1) x).toNat := by
  have h : ((start + 1 : Nat) : Int) ≤ max ((start : Int) + 1) x := by
    push_cast
    exact le_max_left _ _
  simpa using Int.toNat_le_toNat h

/-- Every chunk emitted from cursor position `start` starts at or after
`start`. -/
theorem splitIntoChunksF_start_le (text : List Char) (cs co : Int)
    (o : BreakOpts) :
    ∀ (fuel start : Nat) (p : Nat × List Char),
      p ∈ splitIntoChunksF text cs co o fuel start → start ≤ p.1 := by
  intro fuel
  induction fuel with
  | zero => intro start p hp; simp [splitIntoChunksF] at hp
  | succ f ih =>
    intro start p hp
    by_cases h : start < text.length
    · simp only [splitIntoChunksF, if_pos h] at hp
      split at hp <;> split at hp <;>
        first
          | (rcases List.mem_cons.mp hp with h1 | h1
             · simp [h1]
             · exact le_trans (by omega)
                 (le_trans (nextStart_ge start _) (ih _ p h1)))
          | exact le_trans (by omega)
              (le_trans (nextStart_ge start _) (ih _ p hp))
    · simp [splitIntoChunksF, h] at hp

/-- Emitted chunk start offsets are strictly increasing, for every input
text, every chunk size and overlap (including pathological ones), and
every fuel. -/
theorem splitIntoChunksF_chain (text : List Char) (cs co : Int)
    (o : BreakOpts) :
    ∀ (fuel start : Nat),
      List.Chain' (fun p q => p.1 < q.1)
        (splitIntoChunksF text cs co o fuel start) := by
  intro fuel
  induction fuel with
  | zero => intro start; simp [splitIntoChunksF]
  | succ f ih =>
    intro start
    by_cases h : start < text.length
    · simp only [splitIntoChunksF, if_pos h]
      split <;> split
      · exact ih _
      · refine List.chain'_cons'.mpr ⟨fun q hq => ?_, ih _⟩
        have hmem := List.mem_of_mem_head? hq
        have := splitIntoChunksF_start_le text cs co o f _ q hmem
        have := nextStart_ge start (findBreakPoint text start
          ((start : Int) + cs ⊓ (text.length : Int)) o - co)
        omega
      · exact ih _
      · refine List.chain'_cons'.mpr ⟨fun q hq => ?_, ih _⟩
        have hmem := List.mem_of_mem_head? hq
        have := splitIntoChunksF_start_le text cs co o f _ q hmem
        have := nextStart_ge start (((start : Int) + cs ⊓ (text.length : Int)) - co)
        omega
    · simp [splitIntoChunksF, h]

/-- Termination of the `while` loop, made explicit: since the cursor
advances by at least one position per iteration, any fuel of at least
`text.length - start` computes the same (complete) result — the loop
needs at most `text.length - start` iterations. -/
theorem splitIntoChunksF_fuel_irrelevant (text : List Char) (cs co : Int)
    (o : BreakOpts) :
    ∀ (f1 : Nat), ∀ (f2 start : Nat),
      text.length - start ≤ f1 → text.length - start ≤ f2 →
      splitIntoChunksF text cs co o f1 start
        = splitIntoChunksF text cs co o f2 start := by
  intro f1
  induction f1 with
  | zero =>
    intro f2 start h1 h2
    have h : ¬ start < text.length := by omega
    cases f2 with
    | zero => rfl
    | succ g => simp [splitIntoChunksF, h]
  | succ f ih =>
    intro f2 start h1 h2
    cases f2 with
    | zero =>
      have h : ¬ start < text.length := by omega
      simp [splitIntoChunksF, h]
    | succ g =>
      by_cases h : start < text.length
      · simp only [splitIntoChunksF, if_pos h]
        have hnext := nextStart_ge start
          ((if ((start : Int) + cs) ⊓ (text.length : Int) < (text.length : Int) then
              findBreakPoint text start (((start : Int) + cs) ⊓ (text.length : Int)) o
            else ((start : Int) + cs) ⊓ (text.length : Int)) - co)
        rw [ih g _ (by omega) (by omega)]
      · simp [splitIntoChunksF, h]

/-! ## Character-level lemmas about preprocessing and searching -/

/-- Characters of `collapseWs` output: either the replacement space, or a
non-whitespace character of the input. -/
theorem mem_collapseWsAux (c : Char) :
    ∀ (l : List Char) (b : Bool), c ∈ collapseWsAux b l →
      c = ' ' ∨ (c ∈ l ∧ isJsWhitespace c = false) := by
  intro l
  induction l with
  | nil => intro b hc; simp [collapseWsAux] at hc
  | cons a rest ih =>
    intro b hc
    by_cases hws : isJsWhitespace a
    · simp only [collapseWsAux, if_pos hws] at hc
      rcases List.mem_append.mp hc with h1 | h1
      · left
        cases b <;> simp_all
      · rcases ih true h1 with h2 | h2
        · exact Or.inl h2
        · exact Or.inr ⟨List.mem_cons_of_mem a h2.1, h2.2⟩
    · simp only [collapseWsAux, if_neg hws] at hc
      rcases List.mem_cons.mp hc with h1 | h1
      · subst h1
        exact Or.inr ⟨List.mem_cons_self _ _, by simpa using hws⟩
      · rcases ih false h1 with h2 | h2
        · exact Or.inl h2
        · exact Or.inr ⟨List.mem_cons_of_mem a h2.1, h2.2⟩

/-- The function `dropWhile` keeps a sublist, hence a subset. -/
theorem mem_of_mem_dropWhile (p : Char → Bool) (l : List Char) (c : Char)
    (hc : c ∈ l.dropWhile p) : c ∈ l :=
  (List.dropWhile_sublist p (l := l)).subset hc

/-- The function `trim` only removes characters. -/
theorem jsTrim_subset (l : List Char) : jsTrim l ⊆ l := by
  intro c hc
  simp only [jsTrim, List.mem_reverse] at hc
  have h1 := mem_of_mem_dropWhile _ _ _ hc
  rw [List.mem_reverse] at h1
  exact mem_of_mem_dropWhile _ _ _ h1

/-- If no character of `l` satisfies `p`, `dropWhile p` is the identity. -/
theorem dropWhile_eq_self_of (p : Char → Bool) :
    ∀ (l : List Char), (∀ c ∈ l, p c = false) → l.dropWhile p = l := by
  intro l h
  cases l with
  | nil => rfl
  | cons a rest => simp [List.dropWhile_cons, h a (List.mem_cons_self a rest)]

/-- The function `trim` is the identity on whitespace-free text. -/
theorem jsTrim_eq_self (l : List Char) (h : ∀ c ∈ l, isJsWhitespace c = false) :
    jsTrim l = l := by
  simp only [jsTrim]
  rw [dropWhile_eq_self_of _ l h,
    dropWhile_eq_self_of _ l.reverse (fun c hc => h c (List.mem_reverse.mp hc)),
    List.reverse_reverse]

/-- The processed text contains no newline: the `\s+ → ' '` pass replaces
every whitespace character (in particular every `'\n'`) by `' '`. -/
theorem no_newline_in_preprocessText (t : List Char) :
    '\n' ∉ preprocessText t := by
  intro hmem
  have h1 := jsTrim_subset _ hmem
  rcases mem_collapseWsAux '\n' _ false h1 with h2 | h2
  · exact absurd h2 (by decide)
  · exact absurd h2.2 (by decide)

/-- The scanner `jsLastIndexOfAux` never finds anything when the needle's first
character does not occur in the scanned text. -/
theorem jsLastIndexOfAux_of_not_mem (c0 : Char) (needle : List Char)
    (clamp : Nat) :
    ∀ (l : List Char) (k : Nat) (acc : Int),
      (∀ c ∈ l, c ≠ c0) →
      jsLastIndexOfAux (c0 :: needle) clamp l k acc = acc := by
  intro l
  induction l with
  | nil => intro k acc _; rfl
  | cons a rest ih =>
    intro k acc h
    have ha : a ≠ c0 := h a (List.mem_cons_self a rest)
    have hpre : (c0 :: needle).isPrefixOf (a :: rest) = false := by
      simp [List.isPrefixOf, Ne.symm ha]
    simp only [jsLastIndexOfAux, hpre, if_false, Bool.false_eq_true]
    split
    · rfl
    · exact ih (k + 1) acc (fun c hc => h c (List.mem_cons_of_mem a hc))

/-- The function `jsLastIndexOf` returns `-1` when the needle's first character does
not occur in the text. -/
theorem jsLastIndexOf_eq_neg_one (text : List Char) (c0 : Char)
    (needle : List Char) (fromIdx : Int) (h : ∀ c ∈ text, c ≠ c0) :
    jsLastIndexOf text (c0 :: needle) fromIdx = -1 :=
  jsLastIndexOfAux_of_not_mem c0 needle _ text 0 (-1) h

/-- The scanner's result never exceeds `max acc clamp`. -/
theorem jsLastIndexOfAux_le (needle : List Char) (clamp : Nat) :
    ∀ (l : List Char) (k : Nat) (acc : Int),
      jsLastIndexOfAux needle clamp l k acc ≤ max acc (clamp : Int) := by
  intro l
  induction l with
  | nil => intro k acc; exact le_max_left _ _
  | cons a rest ih =>
    intro k acc
    simp only [jsLastIndexOfAux]
    split
    · exact le_max_left _ _
    · refine le_trans (ih (k + 1) _) ?_
      split
      · next hk =>
        have : (k : Int) ≤ (clamp : Int) := by omega
        simp only [max_le_iff]
        exact ⟨le_trans this (le_max_right _ _), le_max_right _ _⟩
      · exact max_le_max (le_refl _) (le_refl _)

/-- The search `lastIndexOf(needle, fromIdx)` never returns a position beyond
`fromIdx` (nor beyond the text length). -/
theorem jsLastIndexOf_le (text needle : List Char) (fromIdx : Int) :
    jsLastIndexOf text needle fromIdx ≤ max fromIdx 0 := by
  refine le_trans (jsLastIndexOfAux_le needle _ text 0 (-1)) ?_
  have h1 : ((min (max fromIdx 0).toNat text.length : Nat) : Int)
      ≤ ((max fromIdx 0).toNat : Int) := by
    have := Nat.min_le_left (max fromIdx 0).toNat text.length
    omega
  have h2 : (((max fromIdx 0).toNat : Nat) : Int) = max fromIdx 0 := by
    have : (0 : Int) ≤ max fromIdx 0 := le_max_right _ _
    omega
  have h3 : (-1 : Int) ≤ max fromIdx 0 := by
    have : (0 : Int) ≤ max fromIdx 0 := le_max_right _ _
    omega
  simp only [max_le_iff]
  exact ⟨h3, by omega⟩

/-- The sentence regex finds no match in punctuation-free text. -/
theorem sentenceScanF_eq_nil (fuel : Nat) :
    ∀ (l : List Char) (idx : Nat),
      (∀ c ∈ l, isSentencePunct c = false) →
      sentenceScanF fuel l idx = [] := by
  induction fuel with
  | zero => intro l idx _; rfl
  | succ f ih =>
    intro l idx h
    cases l with
    | nil => rfl
    | cons a rest =>
      have ha : isSentencePunct a = false := h a (List.mem_cons_self a rest)
      simp only [sentenceScanF, sentenceMatchLen, ha, Bool.false_eq_true,
        if_false]
      exact ih rest (idx + 1) (fun c hc => h c (List.mem_cons_of_mem a hc))

/-- The function `findSentenceBreak` returns `start` on punctuation-free text. -/
theorem findSentenceBreak_eq_start (text : List Char) (start : Nat)
    (endPos : Int) (h : ∀ c ∈ text, isSentencePunct c = false) :
    findSentenceBreak text start endPos = start := by
  simp only [findSentenceBreak]
  rw [sentenceScanF_eq_nil _ _ _
    (fun c hc => h c (List.drop_subset start text hc))]
  rfl

/-- On text free of spaces, sentence punctuation and newlines, every
break-point search falls through to the raw candidate `endPos`. -/
theorem findBreakPoint_eq_endPos (text : List Char) (start : Nat)
    (endPos : Int) (o : BreakOpts)
    (hsp : ∀ c ∈ text, c ≠ ' ')
    (hpunct : ∀ c ∈ text, isSentencePunct c = false)
    (hnl : ∀ c ∈ text, c ≠ '\n') :
    findBreakPoint text start endPos o = endPos := by
  have hword : jsLastIndexOf text [' '] endPos = -1 :=
    jsLastIndexOf_eq_neg_one text ' ' [] endPos hsp
  have hpara : jsLastIndexOf text ['\n', '\n'] endPos = -1 :=
    jsLastIndexOf_eq_neg_one text '\n' ['\n'] endPos hnl
  have hneg : ¬ ((-1 : Int) > (start : Int)) := by omega
  have hsb := findSentenceBreak_eq_start text start endPos hpunct
  simp only [findBreakPoint, hword, hpara, hsb, gt_iff_lt, lt_self_iff_false,
    if_false, hneg]
  split <;> split <;> simp

/-- Characters of a collapsed newline run are newlines. -/
theorem mem_nlRunOut (k : Nat) (c : Char) (hc : c ∈ nlRunOut k) : c = '\n' := by
  simp only [nlRunOut] at hc
  split at hc
  · simp at hc
    exact hc
  · exact List.eq_of_mem_replicate hc

/-- Characters of `collapseNl` output come from the input or are
newlines. -/
theorem mem_collapseNlAux (c : Char) :
    ∀ (l : List Char) (k : Nat), c ∈ collapseNlAux k l → c = '\n' ∨ c ∈ l := by
  intro l
  induction l with
  | nil => intro k hc; exact Or.inl (mem_nlRunOut k c hc)
  | cons a rest ih =>
    intro k hc
    by_cases ha : a = '\n'
    · simp only [collapseNlAux, if_pos ha] at hc
      rcases ih (k + 1) hc with h | h
      · exact Or.inl h
      · exact Or.inr (List.mem_cons_of_mem a h)
    · simp only [collapseNlAux, if_neg ha] at hc
      rcases List.mem_append.mp hc with h | h
      · exact Or.inl (mem_nlRunOut k c h)
      · rcases List.mem_cons.mp h with h1 | h1
        · exact Or.inr (h1 ▸ List.mem_cons_self a rest)
        · rcases ih 0 h1 with h2 | h2
          · exact Or.inl h2
          · exact Or.inr (List.mem_cons_of_mem a h2)

/-- Characters of `replaceCrLf` output come from the input or are
newlines. -/
theorem mem_replaceCrLf (c : Char) :
    ∀ (l : List Char), c ∈ replaceCrLf l → c = '\n' ∨ c ∈ l := by
  intro l
  induction l using replaceCrLf.induct with
  | case1 rest ih =>
    intro hc
    simp only [replaceCrLf] at hc
    rcases List.mem_cons.mp hc with h | h
    · exact Or.inl h
    · rcases ih h with h1 | h1
      · exact Or.inl h1
      · exact Or.inr (List.mem_cons_of_mem _ (List.mem_cons_of_mem _ h1))
  | case2 a rest hne ih =>
    intro hc
    rw [replaceCrLf.eq_2 a rest hne] at hc
    rcases List.mem_cons.mp hc with h | h
    · exact Or.inr (h ▸ List.mem_cons_self a rest)
    · rcases ih h with h1 | h1
      · exact Or.inl h1
      · exact Or.inr (List.mem_cons_of_mem a h1)
  | case3 => intro hc; simp [replaceCrLf] at hc

/-- Every character of the processed text is a space, a newline, or a
character of the original text. -/
theorem mem_preprocessText (c : Char) (t : List Char)
    (hc : c ∈ preprocessText t) : c = ' ' ∨ c = '\n' ∨ c ∈ t := by
  have h1 := jsTrim_subset _ hc
  rcases mem_collapseWsAux c _ false h1 with h2 | h2
  · exact Or.inl h2
  · rcases mem_collapseNlAux c _ 0 h2.1 with h3 | h3
    · exact Or.inr (Or.inl h3)
    · rcases mem_replaceCrLf c _ h3 with h4 | h4
      · exact Or.inr (Or.inl h4)
      · exact Or.inr (Or.inr h4)

/-- The pass `replaceCrLf` is the identity when the text has no carriage return. -/
theorem replaceCrLf_eq_self :
    ∀ (l : List Char), (∀ c ∈ l, c ≠ '\r') → replaceCrLf l = l := by
  intro l
  induction l using replaceCrLf.induct with
  | case1 rest ih =>
    intro h
    exact absurd rfl (h '\r' (List.mem_cons_self _ _))
  | case2 a rest hne ih =>
    intro h
    rw [replaceCrLf.eq_2 a rest hne,
      ih (fun c hc => h c (List.mem_cons_of_mem a hc))]
  | case3 => intro _; rfl

/-- The pass `collapseNl` is the identity when the text has no newline. -/
theorem collapseNlAux_eq_self :
    ∀ (l : List Char), (∀ c ∈ l, c ≠ '\n') → collapseNlAux 0 l = l := by
  intro l
  induction l with
  | nil => intro _; rfl
  | cons a rest ih =>
    intro h
    have ha : ¬ a = '\n' := h a (List.mem_cons_self a rest)
    simp only [collapseNlAux, if_neg ha, nlRunOut]
    simp only [show ¬ (3 ≤ 0) from by omega, if_false, List.replicate_zero,
      List.nil_append, List.cons.injEq, true_and]
    exact ih (fun c hc => h c (List.mem_cons_of_mem a hc))

/-- The pass `collapseWs` is the identity on whitespace-free text. -/
theorem collapseWsAux_eq_self :
    ∀ (l : List Char) (b : Bool), (∀ c ∈ l, isJsWhitespace c = false) →
      collapseWsAux b l = l := by
  intro l
  induction l with
  | nil => intro b _; rfl
  | cons a rest ih =>
    intro b h
    have ha : ¬ isJsWhitespace a = true := by
      simp [h a (List.mem_cons_self a rest)]
    simp only [collapseWsAux, if_neg ha, List.cons.injEq, true_and]
    exact ih false (fun c hc => h c (List.mem_cons_of_mem a hc))

/-- Preprocessing is the identity on whitespace-free text. -/
theorem preprocessText_eq_self (t : List Char)
    (h : ∀ c ∈ t, isJsWhitespace c = false) : preprocessText t = t := by
  have hcr : ∀ c ∈ t, c ≠ '\r' := by
    intro c hc he
    have := h c hc
    rw [he] at this
    exact absurd this (by decide)
  have hnl : ∀ c ∈ t, c ≠ '\n' := by
    intro c hc he
    have := h c hc
    rw [he] at this
    exact absurd this (by decide)
  simp only [preprocessText, collapseNl, collapseWs,
    replaceCrLf_eq_self t hcr, collapseNlAux_eq_self t hnl,
    collapseWsAux_eq_self t false h, jsTrim_eq_self t h]

/-- A `substring` with equal endpoints is empty. -/
theorem jsSubstring_self (l : List Char) (a : Int) : jsSubstring l a a = [] := by
  simp [jsSubstring]

/-- A `substring` with in-range `Nat` endpoints is the plain slice. -/
theorem jsSubstring_natCast (l : List Char) (a b : Nat) (hab : a ≤ b)
    (hb : b ≤ l.length) :
    jsSubstring l (a : Int) (b : Int) = (l.drop a).take (b - a) := by
  simp only [jsSubstring]
  have ha' : ((min (max (a : Int) 0) (l.length : Int))).toNat = a := by omega
  have hb' : ((min (max (b : Int) 0) (l.length : Int))).toNat = b := by omega
  rw [ha', hb', Nat.min_eq_left hab, Nat.max_eq_right hab]

/-- Length of an in-range slice. -/
theorem jsSubstring_natCast_length (l : List Char) (a b : Nat) (hab : a ≤ b)
    (hb : b ≤ l.length) :
    (jsSubstring l (a : Int) (b : Int)).length = b - a := by
  rw [jsSubstring_natCast l a b hab hb]
  simp only [List.length_take, List.length_drop]
  omega

/-- A slice is a subset of the text. -/
theorem jsSubstring_subset (l : List Char) (a b : Int) :
    jsSubstring l a b ⊆ l := by
  intro c hc
  simp only [jsSubstring] at hc
  exact (List.drop_subset _ l) ((List.take_subset _ _) hc)

/-- When the candidate end equals the cursor (`chunkSize = 0`), the
break-point search returns the cursor itself on punctuation-free text:
both `lastIndexOf` searches are bounded by `fromIdx = start`, and the
sentence scan finds nothing. -/
theorem findBreakPoint_self (text : List Char) (start : Nat) (o : BreakOpts)
    (hpunct : ∀ c ∈ text, isSentencePunct c = false) :
    findBreakPoint text start (start : Int) o = (start : Int) := by
  have hword := jsLastIndexOf_le text [' '] (start : Int)
  have hpara := jsLastIndexOf_le text ['\n', '\n'] (start : Int)
  have hmax : max (start : Int) 0 = (start : Int) := by omega
  rw [hmax] at hword hpara
  have hsb := findSentenceBreak_eq_start text start (start : Int) hpunct
  simp only [findBreakPoint, hsb, gt_iff_lt, lt_self_iff_false, if_false]
  have h1 : ¬ (start : Int) < jsLastIndexOf text [' '] (start : Int) := by omega
  have h2 : ¬ (start : Int) < jsLastIndexOf text ['\n', '\n'] (start : Int) := by
    omega
  simp only [h1, if_false, h2]
  split <;> split <;> simp

/-- With `chunkSize = 0` the splitting loop emits nothing on
punctuation-free text: every candidate end equals the cursor, so every
would-be chunk is the empty substring, which is skipped. -/
theorem splitIntoChunksF_zero_size (text : List Char) (co : Int)
    (o : BreakOpts) (hpunct : ∀ c ∈ text, isSentencePunct c = false) :
    ∀ (fuel start : Nat), splitIntoChunksF text 0 co o fuel start = [] := by
  intro fuel
  induction fuel with
  | zero => intro start; rfl
  | succ f ih =>
    intro start
    by_cases h : start < text.length
    · have hcand : ((start : Int) + 0) ⊓ (text.length : Int) = (start : Int) := by
        omega
      have hlt : (start : Int) < (text.length : Int) := by omega
      simp only [splitIntoChunksF, if_pos h, hcand, if_pos hlt,
        findBreakPoint_self text start o hpunct, jsSubstring_self]
      simp only [jsTrim, List.dropWhile_nil, List.reverse_nil, List.isEmpty_nil,
        if_true]
      exact ih _
    · simp [splitIntoChunksF, h]

/-- The purely arithmetic skeleton of the splitting loop on text where
no break point is ever found: the emitted `(start, end)` windows, with
`end = min(start + chunkSize, len)` and
`start' = max(start + 1, end - chunkOverlap)`. -/
def plainChunkPairs (len : Nat) (cs co : Int) : Nat → Nat → List (Nat × Nat)
  | 0, _ => []
  | fuel + 1, start =>
    if start < len then
      let e : Nat := (((start : Int) + cs) ⊓ (len : Int)).toNat
      (start, e) ::
        plainChunkPairs len cs co fuel
          (((start : Int) + 1) ⊔ ((e : Int) - co)).toNat
    else []

/-- Window bounds of the arithmetic skeleton (for `chunkSize ≥ 1`):
every emitted window satisfies `start < end ≤ len`. -/
theorem plainChunkPairs_bounds (len : Nat) (cs co : Int) (hcs : 1 ≤ cs) :
    ∀ (fuel start : Nat) (p : Nat × Nat),
      p ∈ plainChunkPairs len cs co fuel start → p.1 < p.2 ∧ p.2 ≤ len := by
  intro fuel
  induction fuel with
  | zero => intro start p hp; simp [plainChunkPairs] at hp
  | succ f ih =>
    intro start p hp
    by_cases h : start < len
    · simp only [plainChunkPairs, if_pos h] at hp
      rcases List.mem_cons.mp hp with h1 | h1
      · subst h1
        constructor
        · simp only []
          omega
        · simp only []
          omega
      · exact ih _ p h1
    · simp [plainChunkPairs, h] at hp

/-- On text with no spaces, no sentence punctuation and no newlines, the
splitting loop reduces to its arithmetic skeleton: every chunk is the
untrimmed slice of its window. -/
theorem splitIntoChunksF_plain (text : List Char) (cs co : Int)
    (o : BreakOpts) (hcs : 1 ≤ cs)
    (hws : ∀ c ∈ text, isJsWhitespace c = false)
    (hpunct : ∀ c ∈ text, isSentencePunct c = false) :
    ∀ (fuel start : Nat),
      splitIntoChunksF text cs co o fuel start
        = (plainChunkPairs text.length cs co fuel start).map
            (fun p => (p.1, jsSubstring text (p.1 : Int) (p.2 : Int))) := by
  have hsp : ∀ c ∈ text, c ≠ ' ' := by
    intro c hc he
    have := hws c hc
    rw [he] at this
    exact absurd this (by decide)
  have hnl : ∀ c ∈ text, c ≠ '\n' := by
    intro c hc he
    have := hws c hc
    rw [he] at this
    exact absurd this (by decide)
  intro fuel
  induction fuel with
  | zero => intro start; rfl
  | succ f ih =>
    intro start
    by_cases h : start < text.length
    · have hcand0 : (0 : Int) ≤ ((start : Int) + cs) ⊓ (text.length : Int) := by
        omega
      have hcand : ((((start : Int) + cs) ⊓ (text.length : Int)).toNat : Int)
          = ((start : Int) + cs) ⊓ (text.length : Int) := by omega
      set eN : Nat := (((start : Int) + cs) ⊓ (text.length : Int)).toNat with heN
      have hse : start < eN := by omega
      have hel : eN ≤ text.length := by omega
      have hend : (if ((start : Int) + cs) ⊓ (text.length : Int)
            < (text.length : Int) then
          findBreakPoint text start (((start : Int) + cs) ⊓ (text.length : Int)) o
        else ((start : Int) + cs) ⊓ (text.length : Int))
          = (eN : Int) := by
        split
        · rw [findBreakPoint_eq_endPos text start _ o hsp hpunct hnl, hcand]
        · rw [hcand]
      have hsub : jsTrim (jsSubstring text (start : Int) (eN : Int))
          = jsSubstring text (start : Int) (eN : Int) := by
        refine jsTrim_eq_self _ (fun c hc => hws c ?_)
        exact jsSubstring_subset text _ _ hc
      have hne : (jsSubstring text (start : Int) (eN : Int)).isEmpty = false := by
        have hlen := jsSubstring_natCast_length text start eN (by omega) hel
        cases hq : jsSubstring text (start : Int) (eN : Int) with
        | nil => rw [hq] at hlen; simp at hlen; omega
        | cons x xs => rfl
      simp only [splitIntoChunksF, if_pos h, hend, hsub, hne,
        Bool.false_eq_true, if_false, plainChunkPairs, List.map_cons]
      rw [ih]
    · simp [splitIntoChunksF, h, plainChunkPairs]

/-- Scenario A's input: 2400 characters, no paragraph breaks (indeed no
whitespace and no sentence punctuation at all, so every break-point
search falls through to the raw candidate). -/
def scenarioAText : List Char := List.replicate 2400 'a'

theorem scenarioAText_ws : ∀ c ∈ scenarioAText, isJsWhitespace c = false := by
  intro c hc
  rw [List.eq_of_mem_replicate hc]
  decide

theorem scenarioAText_punct : ∀ c ∈ scenarioAText, isSentencePunct c = false := by
  intro c hc
  rw [List.eq_of_mem_replicate hc]
  decide

/-- The per-chunk character counts `chunkText` produces on Scenario A's
input with `chunkSize = 1000`, `overlap = 50`: the three expected chunks
of 1000, 1000 and 500 characters — and then, because the cursor update
`start = max(start + 1, end - overlap)` re-enters the interval
`[len - overlap, len)` after the final chunk, fifty trailing fragments
of lengths 50, 49, …, 1. -/
theorem scenarioA_map_characterCount :
    (chunkText scenarioAText { chunkSize := 1000, chunkOverlap := 50 }).map
      (fun c => c.characterCount)
    = [1000, 1000, 500] ++ (List.range 50).map (fun i => 50 - i) := by
  simp only [chunkText, preprocessText_eq_self scenarioAText scenarioAText_ws,
    splitIntoChunks]
  rw [splitIntoChunksF_plain scenarioAText 1000 50 ⟨true, true⟩ (by norm_num)
    scenarioAText_ws scenarioAText_punct]
  have h1 : ∀ (l : List (List Char)),
      (l.enum.map fun p =>
        ({ content := p.2, chunkIndex := p.1, startPage := 1, endPage := 1,
           wordCount := countWords p.2, characterCount := p.2.length,
           estimatedReadingTime := calculateReadingTime p.2 } : TextChunk)).map
        (fun c => c.characterCount)
      = l.map (fun c => c.length) := by
    intro l
    rw [List.map_map]
    have h0 : ((fun c : TextChunk => c.characterCount) ∘ fun p : Nat × List Char =>
        ({ content := p.2, chunkIndex := p.1, startPage := 1, endPage := 1,
           wordCount := countWords p.2, characterCount := p.2.length,
           estimatedReadingTime := calculateReadingTime p.2 } : TextChunk))
        = (fun c : List Char => c.length) ∘ Prod.snd := rfl
    rw [h0, ← List.map_map, List.enum_map_snd]
  rw [h1, List.map_map, List.map_map]
  have h2 : List.map
        (((fun c : List Char => c.length) ∘ Prod.snd) ∘ fun p : Nat × Nat =>
          (p.1, jsSubstring scenarioAText (p.1 : Int) (p.2 : Int)))
        (plainChunkPairs scenarioAText.length 1000 50 scenarioAText.length 0)
      = List.map (fun p : Nat × Nat => p.2 - p.1)
        (plainChunkPairs scenarioAText.length 1000 50 scenarioAText.length 0) := by
    refine List.map_congr_left fun p hp => ?_
    have hb := plainChunkPairs_bounds scenarioAText.length 1000 50 (by norm_num)
      _ _ p hp
    show ((jsSubstring scenarioAText (p.1 : Int) (p.2 : Int)).length : Nat)
      = p.2 - p.1
    exact jsSubstring_natCast_length scenarioAText p.1 p.2 (by omega) hb.2
  rw [h2]
  have hlen : scenarioAText.length = 2400 := by
    simp only [scenarioAText, List.length_replicate]
  rw [hlen]
  decide

/-! ## Claim theorems — chunking -/

/-- C7 (counterexample): Scenario A is false on the code.  For a
2400-character input with no paragraph breaks, `chunkSize = 1000`,
`overlap = 50`, `preserveSentences = true`, `chunkText` does *not*
return exactly 3 chunks: after the third chunk reaches the end of the
text the cursor update `start = max(start + 1, end - overlap)` re-enters
the final 50 positions and emits 50 further trailing fragments. -/
theorem C7_counterexample :
    (ChunkingService.chunkText ChunkingService.scenarioAText
      { chunkSize := 1000, chunkOverlap := 50 }).length ≠ 3 := by
  have h := congrArg List.length ChunkingService.scenarioA_map_characterCount
  rw [List.length_map] at h
  rw [h]
  decide

/-- C7 (amended): on Scenario A's input (2400 characters, no paragraph
breaks, `chunkSize = 1000`, `overlap = 50`, `preserveSentences = true`)
`chunkText` returns 53 chunks: the three expected chunks of 1000, 1000
and 500 characters followed by 50 overlap-tail fragments of lengths
50, 49, …, 1; every chunk is at most 1000 characters long. -/
theorem C7_scenarioA_chunk_bounds :
    (ChunkingService.chunkText ChunkingService.scenarioAText
        { chunkSize := 1000, chunkOverlap := 50 }).map
        (fun c => c.characterCount)
      = [1000, 1000, 500] ++ (List.range 50).map (fun i => 50 - i)
    ∧ (ChunkingService.chunkText ChunkingService.scenarioAText
        { chunkSize := 1000, chunkOverlap := 50 }).length = 53
    ∧ ∀ c ∈ ChunkingService.chunkText ChunkingService.scenarioAText
        { chunkSize := 1000, chunkOverlap := 50 }, c.characterCount ≤ 1000 := by
  refine ⟨ChunkingService.scenarioA_map_characterCount, ?_, ?_⟩
  · have h := congrArg List.length ChunkingService.scenarioA_map_characterCount
    rw [List.length_map] at h
    rw [h]
    decide
  · intro c hc
    have hmem : c.characterCount ∈
        (ChunkingService.chunkText ChunkingService.scenarioAText
          { chunkSize := 1000, chunkOverlap := 50 }).map
          (fun c => c.characterCount) :=
      List.mem_map_of_mem _ hc
    rw [ChunkingService.scenarioA_map_characterCount] at hmem
    exact (by decide :
      ∀ x ∈ [1000, 1000, 500] ++ (List.range 50).map (fun i => 50 - i),
        x ≤ 1000) _ hmem

/-- C9: the splitting loop terminates on every input text and every
options value — any fuel of at least `text.length - start` (the loop
runs at most that many iterations, because
`start = max(start + 1, end - overlap)` advances the cursor by at least
one position even when `overlap ≥ end - start`) computes the same
result — and the emitted chunks' start offsets are strictly
increasing. -/
theorem C9_termination_and_forward_progress (text : List Char)
    (chunkSize chunkOverlap : Int) (o : ChunkingService.BreakOpts)
    (f1 f2 start : Nat)
    (h1 : text.length - start ≤ f1) (h2 : text.length - start ≤ f2) :
    ChunkingService.splitIntoChunksF text chunkSize chunkOverlap o f1 start
      = ChunkingService.splitIntoChunksF text chunkSize chunkOverlap o f2 start
    ∧ List.Chain' (fun p q => p.1 < q.1)
        (ChunkingService.splitIntoChunksF text chunkSize chunkOverlap o f1 start) :=
  ⟨ChunkingService.splitIntoChunksF_fuel_irrelevant text chunkSize chunkOverlap
      o f1 f2 start h1 h2,
    ChunkingService.splitIntoChunksF_chain text chunkSize chunkOverlap o f1 start⟩

/-- Witness for C9 at a concrete input. -/
theorem C9_witness :
    ("ab".data.length - 0 ≤ 2) ∧ ("ab".data.length - 0 ≤ 5) ∧
    (ChunkingService.splitIntoChunksF "ab".data 1 0 ⟨true, true⟩ 2 0
        = ChunkingService.splitIntoChunksF "ab".data 1 0 ⟨true, true⟩ 5 0
      ∧ List.Chain' (fun p q => p.1 < q.1)
          (ChunkingService.splitIntoChunksF "ab".data 1 0 ⟨true, true⟩ 2 0)) :=
  ⟨by decide, by decide,
    C9_termination_and_forward_progress "ab".data 1 0 ⟨true, true⟩ 2 5 0
      (by decide) (by decide)⟩

/-- C10: the preprocessing step collapses every whitespace run (newlines
included) to a single space, so the processed text never contains a
newline — let alone a double newline — and the paragraph-break branch of
`findBreakPoint` (priority rule 1) can never fire: on the processed text
the search behaves exactly as if `preserveParagraphs` were disabled,
falling through to the sentence rule, the word rule, or the raw
candidate position. -/
theorem C10_paragraph_rule_dead (t : List Char) (start : Nat) (endPos : Int)
    (ps : Bool) :
    '\n' ∉ ChunkingService.preprocessText t
    ∧ ChunkingService.findBreakPoint (ChunkingService.preprocessText t)
        start endPos ⟨ps, true⟩
      = ChunkingService.findBreakPoint (ChunkingService.preprocessText t)
        start endPos ⟨ps, false⟩ := by
  have hnl := ChunkingService.no_newline_in_preprocessText t
  refine ⟨hnl, ?_⟩
  have hpara : jsLastIndexOf (ChunkingService.preprocessText t) ['\n', '\n']
      endPos = -1 :=
    jsLastIndexOf_eq_neg_one _ '\n' ['\n'] endPos
      (fun c hc he => hnl (he ▸ hc))
  have hneg : ¬ ((-1 : Int) > (start : Int)) := by omega
  simp [ChunkingService.findBreakPoint, hpara, hneg]

/-- C2 (counterexample): the claim "chunkSize = 0 fails with
`InvalidConfiguration` and produces no chunk sequence" is false on the
code — `chunkText` performs no chunk-size validation at all.  Called
with `chunkSize = 0` on `"hello world"` it returns normally, producing
the empty chunk sequence rather than an error. -/
theorem C2_counterexample :
    ChunkingService.chunkTextE "hello world".data
      { chunkSize := 0, chunkOverlap := 0 } = Except.ok [] := by
  have h : ChunkingService.chunkText "hello world".data
      { chunkSize := 0, chunkOverlap := 0 } = [] := by decide
  simp only [ChunkingService.chunkTextE, h]

/-- C2 (amended): `chunkText` never validates `chunkSize`; with
`chunkSize = 0` the call succeeds for every input, and on any text free
of sentence punctuation it returns `Except.ok []` — the empty chunk
sequence, not an `InvalidConfiguration` failure (every candidate end
equals the cursor, so only empty substrings arise and all are
skipped). -/
theorem C2_no_chunk_size_validation (text : List Char)
    (o : ChunkingService.ChunkOptions) (hsize : o.chunkSize = 0)
    (hpunct : ∀ c ∈ text, ChunkingService.isSentencePunct c = false) :
    ChunkingService.chunkTextE text o = Except.ok [] := by
  obtain ⟨cs, co, ps, pp⟩ := o
  simp only at hsize
  subst hsize
  have hp : ∀ c ∈ ChunkingService.preprocessText text,
      ChunkingService.isSentencePunct c = false := by
    intro c hc
    rcases ChunkingService.mem_preprocessText c text hc with h | h | h
    · rw [h]; decide
    · rw [h]; decide
    · exact hpunct c h
  simp only [ChunkingService.chunkTextE, ChunkingService.chunkText,
    ChunkingService.splitIntoChunks,
    ChunkingService.splitIntoChunksF_zero_size _ co _ hp,
    List.map_nil, List.enum_nil]

/-- Witness for C2's amended theorem at a concrete input. -/
theorem C2_witness :
    (({ chunkSize := 0, chunkOverlap := 7 } :
        ChunkingService.ChunkOptions).chunkSize = 0)
    ∧ (∀ c ∈ "no punctuation here".data,
        ChunkingService.isSentencePunct c = false)
    ∧ ChunkingService.chunkTextE "no punctuation here".data
        { chunkSize := 0, chunkOverlap := 7 } = Except.ok [] :=
  ⟨by decide, by decide,
    C2_no_chunk_size_validation "no punctuation here".data
      { chunkSize := 0, chunkOverlap := 7 } (by decide) (by decide)⟩

/-! ## Claim theorems — OCR extraction -/

/-- The page loop keeps exactly the pages before the first non-`page`
outcome: any error (recognition included) breaks the loop. -/
theorem processPDFLoop_stops_at_failure
    (bad : OCRService.PageOutcome)
    (hbad : bad = OCRService.PageOutcome.convertError
      ∨ bad = OCRService.PageOutcome.noPath
      ∨ bad = OCRService.PageOutcome.recognizeError) :
    ∀ (pre : List (List Char × ℚ)) (rest : List OCRService.PageOutcome)
      (n : Nat),
      OCRService.processPDFLoop
        (pre.map (fun p => OCRService.PageOutcome.page p.1 p.2) ++ bad :: rest) n
      = (List.enumFrom n pre).map
          (fun q => { text := jsTrim q.2.1, confidence := q.2.2,
                      pageNumber := q.1 }) := by
  intro pre
  induction pre with
  | nil =>
    intro rest n
    rcases hbad with h | h | h <;> subst h <;> rfl
  | cons hd tl ih =>
    intro rest n
    simp only [List.map_cons, List.cons_append, OCRService.processPDFLoop,
      List.enumFrom, List.append_eq]
    rw [ih rest (n + 1)]

/-- C1 (amended): per-page failure is *not* isolated.  When recognition
throws for a page, the `catch` in `processPDF`'s page loop breaks out of
the loop: the aggregate contains exactly the pages *before* the first
failing page (numbered from 1, each with trimmed text), every later page
is left unrecognized, and the call itself still returns normally (so the
pipeline proceeds with the truncated aggregate). -/
theorem C1_recognition_failure_truncates
    (pre : List (List Char × ℚ)) (rest : List OCRService.PageOutcome) :
    OCRService.processPDF
      (pre.map (fun p => OCRService.PageOutcome.page p.1 p.2)
        ++ OCRService.PageOutcome.recognizeError :: rest)
    = (List.enumFrom 1 pre).map
        (fun q => { text := jsTrim q.2.1, confidence := q.2.2,
                    pageNumber := q.1 }) :=
  processPDFLoop_stops_at_failure OCRService.PageOutcome.recognizeError
    (Or.inr (Or.inr rfl)) pre rest 1

/-- Scenario B's page outcomes: a 3-page source whose second page throws
during recognition. -/
def scenarioBPages : List OCRService.PageOutcome :=
  [OCRService.PageOutcome.page ['a'] 90,
   OCRService.PageOutcome.recognizeError,
   OCRService.PageOutcome.page ['c'] 80]

/-- C1 (counterexample): on a 3-page source where page 2 throws during
recognition, the aggregate does *not* contain the two entries for pages
1 and 3 that the claim promises — it contains only page 1, because the
loop breaks at the failing page and page 3 is never recognized. -/
theorem C1_counterexample :
    (OCRService.processPDF scenarioBPages).map (fun r => r.pageNumber) = [1]
    ∧ (OCRService.processPDF scenarioBPages).length ≠ 2 := by
  constructor
  · decide
  · decide

/-! ## Claim theorems — aggregation (C4) -/

/-- The fold `reduce((sum, r) => sum + r.confidence, 0)` is the sum of all
per-page confidences. -/
theorem foldl_confidence (l : List OCRService.OCRResult) :
    ∀ (a : ℚ), l.foldl (fun sum r => sum + r.confidence) a
      = a + (l.map fun r => r.confidence).sum := by
  induction l with
  | nil => intro a; simp
  | cons hd tl ih =>
    intro a
    simp only [List.foldl_cons, List.map_cons, List.sum_cons, ih, add_assoc]

/-- The three-page example of the claim: confidences 90, 0, 80. -/
def c4pages : List OCRService.OCRResult :=
  [{ text := "ninety".data, confidence := 90, pageNumber := 1 },
   { text := "zero".data, confidence := 0, pageNumber := 2 },
   { text := "eighty".data, confidence := 80, pageNumber := 3 }]

/-- C4: for every non-empty page-result list the aggregate confidence is
the arithmetic mean of *all* per-page confidences — the sum over every
page (zero-confidence pages included) divided by the total page count —
and the aggregated text joins the page texts with a blank-line separator
in page order.  On the claim's example `[90, 0, 80]` the mean is
`170/3 = 56.67`, not the zero-excluding `85`. -/
theorem C4_confidence_aggregation (results : List OCRService.OCRResult)
    (h : results ≠ []) :
    Pipeline.averageConfidence results
      = some ((results.map fun r => r.confidence).sum / (results.length : ℚ))
    ∧ Pipeline.averageConfidence c4pages = some (170 / 3)
    ∧ ((170 : ℚ) / 3 ≠ 85)
    ∧ Pipeline.combineExtractedText c4pages
      = ("ninety" ++ "\n\n" ++ "zero" ++ "\n\n" ++ "eighty").data := by
  refine ⟨?_, ?_, by norm_num, by decide⟩
  · have h0 : results.length ≠ 0 := by
      simpa [List.length_eq_zero] using h
    have hq : (results.length : ℚ) ≠ 0 := by
      exact_mod_cast h0
    simp only [Pipeline.averageConfidence, jsDiv, if_neg hq,
      foldl_confidence results 0, zero_add]
  · simp only [Pipeline.averageConfidence, jsDiv, c4pages]
    norm_num

/-- Witness for C4 at the claim's own example. -/
theorem C4_witness :
    c4pages ≠ []
    ∧ (Pipeline.averageConfidence c4pages
        = some ((c4pages.map fun r => r.confidence).sum / (c4pages.length : ℚ))
      ∧ Pipeline.averageConfidence c4pages = some (170 / 3)
      ∧ ((170 : ℚ) / 3 ≠ 85)
      ∧ Pipeline.combineExtractedText c4pages
        = ("ninety" ++ "\n\n" ++ "zero" ++ "\n\n" ++ "eighty").data) :=
  ⟨by simp [c4pages], C4_confidence_aggregation c4pages (by simp [c4pages])⟩

/-! ## Claim theorems — pipeline orchestration -/

/-- A zero-page run: storage read succeeds, `extractTextFromBuffer`
returns an empty page-result list (as `processPDF` does when the very
first page fails), chunking disabled, inserts would succeed, no prior
chunks. -/
def zeroPageScenario : Pipeline.Scenario :=
  { storageOk := true, ocrOutcome := Except.ok [], enableChunking := false,
    chunkSize := 1000, chunkOverlap := 200, saveOk := true, priorChunks := [] }

/-- C3 (counterexample): a run that recognizes zero pages does *not*
fail.  `processDocument` never checks `ocrResults.length`: the run ends
with the document `COMPLETED` (not `FAILED`), carrying the empty string
as extracted text, and the job `COMPLETED`. -/
theorem C3_counterexample :
    (Pipeline.finalState zeroPageScenario).doc.status
        = Pipeline.ProcessingStatus.COMPLETED
    ∧ (Pipeline.finalState zeroPageScenario).doc.extractedText = some []
    ∧ (Pipeline.finalState zeroPageScenario).job.status
        = Pipeline.JobStatus.COMPLETED := by
  refine ⟨by decide, by decide, by decide⟩

/-- C3 (amended): when extraction returns zero page results (and nothing
else fails), the pipeline completes instead of failing: the document
ends `COMPLETED` with `extractedText` the empty string and
`ocrConfidence` set to JavaScript's `0 / 0 = NaN`, and the job ends
`COMPLETED` — there is no `ExtractionFailed` check anywhere in
`processDocument`. -/
theorem C3_zero_pages_completes (sc : Pipeline.Scenario)
    (h1 : sc.storageOk = true) (h2 : sc.ocrOutcome = Except.ok [])
    (h3 : sc.saveOk = true) :
    (Pipeline.finalState sc).doc.status = Pipeline.ProcessingStatus.COMPLETED
    ∧ (Pipeline.finalState sc).doc.extractedText = some []
    ∧ (Pipeline.finalState sc).doc.ocrConfidence = some none
    ∧ (Pipeline.finalState sc).job.status = Pipeline.JobStatus.COMPLETED := by
  obtain ⟨so, oo, ec, cs, co, sv, pc⟩ := sc
  simp only at h1 h2 h3
  subst h1 h2 h3
  cases ec <;>
    simp [Pipeline.finalState, Pipeline.processDocumentTrace,
      Pipeline.failSteps, Pipeline.completeSteps, Pipeline.jobUpdateStatus,
      Pipeline.docUpdateStatus, Pipeline.docUpdateExtracted,
      Pipeline.initialDocument, Pipeline.initialJob,
      Pipeline.combineExtractedText, Pipeline.averageConfidence, jsDiv,
      List.getLastD, List.intercalate]

/-- Witness for C3's amended theorem. -/
theorem C3_witness :
    zeroPageScenario.storageOk = true
    ∧ zeroPageScenario.ocrOutcome = Except.ok []
    ∧ zeroPageScenario.saveOk = true
    ∧ ((Pipeline.finalState zeroPageScenario).doc.status
          = Pipeline.ProcessingStatus.COMPLETED
      ∧ (Pipeline.finalState zeroPageScenario).doc.extractedText = some []
      ∧ (Pipeline.finalState zeroPageScenario).doc.ocrConfidence = some none
      ∧ (Pipeline.finalState zeroPageScenario).job.status
          = Pipeline.JobStatus.COMPLETED) :=
  ⟨rfl, rfl, rfl,
    C3_zero_pages_completes zeroPageScenario rfl rfl rfl⟩

/-- A one-page successful run (chunking disabled): used to exhibit the
observable point at which `extractedText` is already set while the
status is `EXTRACTING_TEXT`. -/
def onePageScenario : Pipeline.Scenario :=
  { storageOk := true,
    ocrOutcome :=
      Except.ok [{ text := ['a'], confidence := 90, pageNumber := 1 }],
    enableChunking := false, chunkSize := 1000, chunkOverlap := 200,
    saveOk := true, priorChunks := [] }

/-- C5 (counterexample): the invariant "extractedText is non-null iff
status ∈ {CHUNKING, COMPLETED, FAILED-after-partial-extraction}" is
false on the code: the single `DocumentModel.update` call at lines
209–213 sets `extractedText` *and* `status = EXTRACTING_TEXT` together,
so there is an observable state with status `EXTRACTING_TEXT` and
non-null `extractedText`. -/
theorem C5_counterexample :
    ∃ st ∈ Pipeline.processDocumentTrace onePageScenario,
      st.doc.status = Pipeline.ProcessingStatus.EXTRACTING_TEXT
      ∧ st.doc.extractedText ≠ none := by
  have h : (Pipeline.processDocumentTrace onePageScenario).any (fun st =>
      decide (st.doc.status = Pipeline.ProcessingStatus.EXTRACTING_TEXT)
        && st.doc.extractedText.isSome) = true := by decide
  obtain ⟨st, hmem, hpred⟩ := List.any_eq_true.mp h
  obtain ⟨hp1, hp2⟩ := Bool.and_eq_true_iff.mp hpred
  refine ⟨st, hmem, of_decide_eq_true hp1, ?_⟩
  intro hnone
  rw [hnone] at hp2
  exact absurd hp2 (by decide)

/-- C5 (amended): at every observable point of every run,
`extractedText` is non-null iff the status is `EXTRACTING_TEXT`,
`CHUNKING` or `COMPLETED`, or the status is `FAILED` and the run had
already got past extraction (the only post-extraction failure is the
chunk save).  In particular `extractedText` becomes non-null at the
transition *into* `EXTRACTING_TEXT`, not after it. -/
theorem C5_text_status_invariant :
    ∀ (sc : Pipeline.Scenario), ∀ st ∈ Pipeline.processDocumentTrace sc,
      (st.doc.extractedText ≠ none ↔
        (st.doc.status = Pipeline.ProcessingStatus.EXTRACTING_TEXT ∨
         st.doc.status = Pipeline.ProcessingStatus.CHUNKING ∨
         st.doc.status = Pipeline.ProcessingStatus.COMPLETED ∨
         (st.doc.status = Pipeline.ProcessingStatus.FAILED
           ∧ Pipeline.extractionReached sc = true))) := by
  rintro ⟨so, oo, ec, cs, co, sv, pc⟩
  cases so <;> cases oo <;> cases ec <;> cases sv <;>
    simp [Pipeline.processDocumentTrace, Pipeline.failSteps,
      Pipeline.completeSteps, Pipeline.jobUpdateStatus,
      Pipeline.docUpdateStatus, Pipeline.docUpdateExtracted,
      Pipeline.initialDocument, Pipeline.initialJob,
      Pipeline.extractionReached, List.forall_mem_cons]

/-- Witness for C5's amended theorem at a concrete run and state. -/
theorem C5_witness :
    ({ doc := Pipeline.initialDocument, job := Pipeline.initialJob,
        chunks := [] } : Pipeline.PipelineState)
      ∈ Pipeline.processDocumentTrace onePageScenario
    ∧ (({ doc := Pipeline.initialDocument, job := Pipeline.initialJob,
          chunks := [] } : Pipeline.PipelineState).doc.extractedText ≠ none ↔
        (({ doc := Pipeline.initialDocument, job := Pipeline.initialJob,
            chunks := [] } : Pipeline.PipelineState).doc.status
            = Pipeline.ProcessingStatus.EXTRACTING_TEXT ∨
         ({ doc := Pipeline.initialDocument, job := Pipeline.initialJob,
            chunks := [] } : Pipeline.PipelineState).doc.status
            = Pipeline.ProcessingStatus.CHUNKING ∨
         ({ doc := Pipeline.initialDocument, job := Pipeline.initialJob,
            chunks := [] } : Pipeline.PipelineState).doc.status
            = Pipeline.ProcessingStatus.COMPLETED ∨
         (({ doc := Pipeline.initialDocument, job := Pipeline.initialJob,
             chunks := [] } : Pipeline.PipelineState).doc.status
             = Pipeline.ProcessingStatus.FAILED
           ∧ Pipeline.extractionReached onePageScenario = true))) :=
  ⟨by decide,
    C5_text_status_invariant onePageScenario
      { doc := Pipeline.initialDocument, job := Pipeline.initialJob,
        chunks := [] } (by decide)⟩

/-- A prior chunk row, for exhibiting the non-atomic replacement. -/
def priorChunkRow : ChunkingService.TextChunk :=
  { content := ['x'], chunkIndex := 0, startPage := 1, endPage := 1,
    wordCount := 1, characterCount := 1, estimatedReadingTime := 1 }

/-- A run in which chunking is enabled, a prior chunk set exists, and
the `createMany` insert fails. -/
def failedSaveScenario : Pipeline.Scenario :=
  { storageOk := true,
    ocrOutcome :=
      Except.ok [⟨"hello world".data, 90, 1⟩],
    enableChunking := true, chunkSize := 1000, chunkOverlap := 200,
    saveOk := false, priorChunks := [priorChunkRow] }

/-- C6 (counterexample): chunk replacement is *not* all-or-nothing.
`saveChunks` deletes the prior rows and then inserts, with no
transaction: when the insert fails, the run ends `FAILED` with the
stored chunk set *empty* — neither the (non-empty) prior set nor the
(non-empty) new set. -/
theorem C6_counterexample :
    (Pipeline.finalState failedSaveScenario).chunks = []
    ∧ (Pipeline.finalState failedSaveScenario).doc.status
        = Pipeline.ProcessingStatus.FAILED
    ∧ failedSaveScenario.priorChunks ≠ []
    ∧ ChunkingService.chunkText "hello world".data
        { chunkSize := 1000, chunkOverlap := 200 } ≠ [] := by
  refine ⟨by decide, by decide, by decide, by decide⟩

/-- C6 (amended): `saveChunks` is delete-then-insert.  When the insert
succeeds the stored set is exactly the new chunk set (whose indices are
contiguous `0..N-1`); when the insert fails the prior set has already
been deleted, so the run ends `FAILED` with an *empty* stored chunk set
— an intermediate state the claim's all-or-nothing guarantee rules
out. -/
theorem C6_chunk_replacement (sc : Pipeline.Scenario)
    (results : List OCRService.OCRResult)
    (hso : sc.storageOk = true) (hoo : sc.ocrOutcome = Except.ok results)
    (hec : sc.enableChunking = true) :
    ((sc.saveOk = true →
        (Pipeline.finalState sc).chunks
          = ChunkingService.chunkText (Pipeline.combineExtractedText results)
              { chunkSize := sc.chunkSize, chunkOverlap := sc.chunkOverlap }
        ∧ (Pipeline.finalState sc).doc.status
            = Pipeline.ProcessingStatus.COMPLETED)
     ∧ (sc.saveOk = false →
        (Pipeline.finalState sc).chunks = []
        ∧ (Pipeline.finalState sc).doc.status
            = Pipeline.ProcessingStatus.FAILED))
    ∧ ∀ (text : List Char) (o : ChunkingService.ChunkOptions),
        (ChunkingService.chunkText text o).map (fun c => c.chunkIndex)
          = List.range (ChunkingService.chunkText text o).length := by
  obtain ⟨so, oo, ec, cs, co, sv, pc⟩ := sc
  simp only at hso hoo hec
  subst hso hoo hec
  constructor
  · cases sv <;>
      simp [Pipeline.finalState, Pipeline.processDocumentTrace,
        Pipeline.failSteps, Pipeline.completeSteps, Pipeline.jobUpdateStatus,
        Pipeline.docUpdateStatus, Pipeline.docUpdateExtracted,
        Pipeline.initialDocument, Pipeline.initialJob, List.getLastD]
  · intro text o
    simp only [ChunkingService.chunkText, List.map_map]
    have h0 : ((fun c : ChunkingService.TextChunk => c.chunkIndex) ∘
        fun p : Nat × List Char =>
        ({ content := p.2, chunkIndex := p.1, startPage := 1, endPage := 1,
           wordCount := ChunkingService.countWords p.2,
           characterCount := p.2.length,
           estimatedReadingTime := ChunkingService.calculateReadingTime p.2 } :
          ChunkingService.TextChunk)) = Prod.fst := rfl
    rw [h0, List.enum_map_fst, List.length_map, List.enum_length]

/-- Witness for C6's amended theorem on the failing-save run. -/
theorem C6_witness :
    failedSaveScenario.storageOk = true
    ∧ failedSaveScenario.ocrOutcome
        = Except.ok [⟨"hello world".data, 90, 1⟩]
    ∧ failedSaveScenario.enableChunking = true
    ∧ (failedSaveScenario.saveOk = false →
        (Pipeline.finalState failedSaveScenario).chunks = []
        ∧ (Pipeline.finalState failedSaveScenario).doc.status
            = Pipeline.ProcessingStatus.FAILED) :=
  ⟨rfl, rfl, rfl,
    (C6_chunk_replacement failedSaveScenario
      [⟨"hello world".data, 90, 1⟩] rfl rfl rfl).1.2⟩

/-- C8: over every pipeline run, the job's progress is monotonically
non-decreasing at every step whose resulting status is `ACTIVE`
(0 → 0 → 10 → 70 → 80); `ProcessingJobModel.updateStatus` forces
`progress = 100` on every transition to `COMPLETED`; and at every
observable point the job's `error` is non-null iff its status is
`FAILED`. -/
theorem C8_job_progress_invariant :
    ∀ (sc : Pipeline.Scenario),
      List.Chain' (fun a b => b.job.status = Pipeline.JobStatus.ACTIVE →
        a.job.progress ≤ b.job.progress) (Pipeline.processDocumentTrace sc)
      ∧ (∀ st ∈ Pipeline.processDocumentTrace sc,
          st.job.status = Pipeline.JobStatus.COMPLETED →
            st.job.progress = 100)
      ∧ (∀ (j : Pipeline.Job) (p : Option Nat) (e : Option String),
          (Pipeline.jobUpdateStatus j Pipeline.JobStatus.COMPLETED p e).progress
            = 100)
      ∧ (∀ st ∈ Pipeline.processDocumentTrace sc,
          (st.job.error ≠ none ↔ st.job.status = Pipeline.JobStatus.FAILED)) := by
  rintro ⟨so, oo, ec, cs, co, sv, pc⟩
  refine ⟨?_, ?_, fun j p e => rfl, ?_⟩ <;>
    cases so <;> cases oo <;> cases ec <;> cases sv <;>
      simp [Pipeline.processDocumentTrace, Pipeline.failSteps,
        Pipeline.completeSteps, Pipeline.jobUpdateStatus,
        Pipeline.docUpdateStatus, Pipeline.docUpdateExtracted,
        Pipeline.initialDocument, Pipeline.initialJob,
        List.forall_mem_cons, List.chain'_cons]

/-- Witness for C8 on a concrete run. -/
theorem C8_witness :
    List.Chain' (fun a b => b.job.status = Pipeline.JobStatus.ACTIVE →
      a.job.progress ≤ b.job.progress)
      (Pipeline.processDocumentTrace onePageScenario)
    ∧ (∀ st ∈ Pipeline.processDocumentTrace onePageScenario,
        st.job.status = Pipeline.JobStatus.COMPLETED →
          st.job.progress = 100)
    ∧ (∀ (j : Pipeline.Job) (p : Option Nat) (e : Option String),
        (Pipeline.jobUpdateStatus j Pipeline.JobStatus.COMPLETED p e).progress
          = 100)
    ∧ (∀ st ∈ Pipeline.processDocumentTrace onePageScenario,
        (st.job.error ≠ none ↔ st.job.status = Pipeline.JobStatus.FAILED)) :=
  C8_job_progress_invariant onePageScenario
